import Mathlib

/- Verification development for the snaplog_server repository.

   The two source files are src/server_config.py (the config store) and
   src/main_server.py (whose conversion scheduler loop and conversion
   sweep are modelled here).  Pure functions of the Python code are
   translated to Lean functions; the scheduler loop body and the per-file
   conversion are translated as explicit state-passing functions; Python
   exceptions are modelled with Except.  All definitions are executable.  -/

namespace SnapLog

/-- JSON-style values as they occur in this program's configuration and
sidecar files: strings, integers, null, and string-to-string objects (the
shape of the client_aliases map and of the sidecar metadata values the
claims concern). -/
inductive JVal where
  | jstr (s : String)
  | jint (n : Int)
  | jnull
  | jmap (m : List (String × String))
deriving DecidableEq

/-- Python str() on the values of JVal.  A dict of strings prints as
Python reprs it; null prints as None. -/
def pyStr : JVal → String
  | .jstr s => s
  | .jint n => toString n
  | .jnull => "None"
  | .jmap m =>
      "\x7b" ++ String.intercalate ", "
        (m.map fun p => "\x27" ++ p.1 ++ "\x27: \x27" ++ p.2 ++ "\x27") ++ "\x7d"

/-- Exceptions of the Python code that the claims concern. -/
inductive PyExc where
  | valueError
  | typeError
  | attributeError
deriving DecidableEq

/-- Whether every character of the list is an ASCII digit. -/
def allDigits (cs : List Char) : Bool := cs.all fun c => c.isDigit

/-- Numeric value of a digit string. -/
def digitsToNat (cs : List Char) : Nat :=
  cs.foldl (fun a c => a * 10 + (c.toNat - 48)) 0

/-- Python int() on a string: optional surrounding spaces, an optional
sign, then one or more digits (digit-group underscores are not modelled).
none exactly when Python raises ValueError. -/
def parsePyInt (s : String) : Option Int :=
  let cs := ((s.data.dropWhile (fun c => c = ' ')).reverse.dropWhile
      (fun c => c = ' ')).reverse
  match cs with
  | '+' :: rest =>
      if rest ≠ [] ∧ allDigits rest then some (digitsToNat rest) else none
  | '-' :: rest =>
      if rest ≠ [] ∧ allDigits rest then some (-(digitsToNat rest : Int)) else none
  | rest =>
      if rest ≠ [] ∧ allDigits rest then some (digitsToNat rest) else none

/-- Python int() on a JVal: ints pass through; strings are parsed
(ValueError on failure); None and dicts raise TypeError.  Only ValueError
is caught by the scheduler loop's except clause (main_server.py line 597). -/
def pyInt : JVal → Except PyExc Int
  | .jint n => .ok n
  | .jstr s =>
      match parsePyInt s with
      | some n => .ok n
      | none => .error .valueError
  | .jnull => .error .typeError
  | .jmap _ => .error .typeError

/-- Python == between a JVal and a string: true only for an equal string. -/
def jeqStr (v : JVal) (s : String) : Bool :=
  match v with
  | .jstr t => t = s
  | _ => false

/-- A persisted server_config.json document that parsed as a JSON object:
each of the three fields read by load_server_config may be present or
absent. -/
structure PartialDoc where
  conversion_type : Option JVal
  conversion_value : Option JVal
  client_aliases : Option JVal
deriving DecidableEq

/-- State of the server_config.json file.  nonObject is a file whose JSON
parses but is not an object: loaded_config.get then raises AttributeError,
caught by the broad handler of load_server_config, so defaults are used. -/
inductive CfgFile where
  | missing
  | malformed
  | nonObject
  | doc (d : PartialDoc)
deriving DecidableEq

/-- The in-memory server configuration: the dict built by
load_server_config always carries exactly these three keys. -/
structure ServerConfig where
  conversion_type : JVal
  conversion_value : JVal
  client_aliases : JVal
deriving DecidableEq

def DEFAULT_SERVER_CONVERSION_TYPE : JVal := .jstr "daily"

def DEFAULT_SERVER_CONVERSION_VALUE : JVal := .jstr "17:00"

/-- The defaults dict built at the top of load_server_config
(src/server_config.py lines 33-37). -/
def defaultServerConfig : ServerConfig :=
  ⟨DEFAULT_SERVER_CONVERSION_TYPE, DEFAULT_SERVER_CONVERSION_VALUE, .jmap []⟩

/-- load_server_config (src/server_config.py lines 31-53): a missing file,
malformed JSON, or any other exception (including the AttributeError from
a non-object document) falls back to the defaults; a parsed object is read
field-by-field with loaded_config.get and its per-field defaults. -/
def load_server_config : CfgFile → ServerConfig
  | .missing => defaultServerConfig
  | .malformed => defaultServerConfig
  | .nonObject => defaultServerConfig
  | .doc d =>
      ⟨d.conversion_type.getD DEFAULT_SERVER_CONVERSION_TYPE,
       d.conversion_value.getD DEFAULT_SERVER_CONVERSION_VALUE,
       d.client_aliases.getD (.jmap [])⟩

/-- save_server_config (src/server_config.py lines 55-62): json.dump
overwrites the file with the full three-field document. -/
def save_server_config (c : ServerConfig) : CfgFile :=
  .doc ⟨some c.conversion_type, some c.conversion_value, some c.client_aliases⟩

/-- The two trackers of the scheduler, instance attributes of the server
object (main_server.py lines 66-67): the minute string that last fired a
daily run, and the time (in seconds) the last periodic run was triggered. -/
structure SchedState where
  lastDaily : Option String
  lastPeriodic : Option Int
deriving DecidableEq

/-- Observable behaviour of one loop iteration: whether a sweep was fired,
whether an error or warning was logged, how long the iteration sleeps
before the next one, and the tracker state it leaves behind. -/
structure TickResult where
  fired : Bool
  loggedError : Bool
  sleep : Nat
  state : SchedState
deriving DecidableEq

/-- One iteration of _conversion_scheduler_loop (main_server.py lines
562-617), as a function of the freshly loaded config, the current wall
clock (now, in seconds, together with its strftime %H:%M rendering hm) and
the tracker state.  The daily branch (573-585) compares the minute strings
and maintains the daily guard; the periodic branch (587-604) parses the
interval with int() — only ValueError is caught (log, sleep 60, continue,
which also skips the daily-tracker reset at line 604); a TypeError (for
example from a null value) is uncaught and propagates out of the loop.
An unknown type (lines 606-607) logs a warning and changes nothing. -/
def schedTick (cfg : ServerConfig) (now : Int) (hm : String) (s : SchedState) :
    Except PyExc TickResult :=
  if jeqStr cfg.conversion_type "daily" then
    let target := pyStr cfg.conversion_value
    if hm = target ∧ some hm ≠ s.lastDaily then
      .ok ⟨true, false, 1, ⟨some hm, none⟩⟩
    else if some hm ≠ s.lastDaily then
      .ok ⟨false, false, 1, ⟨none, none⟩⟩
    else
      .ok ⟨false, false, 1, ⟨s.lastDaily, none⟩⟩
  else if jeqStr cfg.conversion_type "periodic" then
    match pyInt cfg.conversion_value with
    | .error .valueError => .ok ⟨false, true, 60, s⟩
    | .error e => .error e
    | .ok interval =>
        match s.lastPeriodic with
        | none => .ok ⟨true, false, 1, ⟨none, some now⟩⟩
        | some t =>
            if now - t ≥ interval then .ok ⟨true, false, 1, ⟨none, some now⟩⟩
            else .ok ⟨false, false, 1, ⟨none, some t⟩⟩
  else
    .ok ⟨false, true, 1, s⟩

/-- _start_conversion_scheduler (main_server.py lines 547-556), called at
startup and again after every settings save (line 532): it stops the
running loop thread and starts a new one, but resets neither
last_daily_conversion_check nor last_periodic_conversion_time, so the
tracker state survives a restart unchanged. -/
def restartScheduler (s : SchedState) : SchedState := s

/-- A run of consecutive loop iterations under a fixed on-disk config:
each element of the clock list is one tick's (now, hm).  Returns the fired
flag of every tick and the final state, or the first uncaught exception. -/
def runTicks (cfg : ServerConfig) :
    List (Int × String) → SchedState → Except PyExc (List Bool × SchedState)
  | [], s => .ok ([], s)
  | (now, hm) :: rest, s =>
      match schedTick cfg now hm s with
      | .error e => .error e
      | .ok r =>
          match runTicks cfg rest r.state with
          | .error e => .error e
          | .ok (fs, s') => .ok (r.fired :: fs, s')

/-- Whether a string has the exact shape strftime %H:%M produces:
two digits, a colon, two digits, with the hour below 24 and the minute
below 60. -/
def isValidHM (s : String) : Bool :=
  match s.data with
  | [h1, h2, c, m1, m2] =>
      c == ':' && h1.isDigit && h2.isDigit && m1.isDigit && m2.isDigit &&
      decide ((h1.toNat - 48) * 10 + (h2.toNat - 48) < 24) &&
      decide ((m1.toNat - 48) * 10 + (m2.toNat - 48) < 60)
  | _ => false

/-- Bool test whether pat is a prefix of the second list (the comparison
Python's str.replace performs at each scan position). -/
def startsWith : List Char → List Char → Bool
  | [], _ => true
  | _ :: _, [] => false
  | p :: ps, c :: cs => p == c && startsWith ps cs

/-- One left-to-right pass of Python str.replace over a character list,
driven by a fuel counter that is at least the list length: at each
position, if the (nonempty) pattern matches, emit the replacement and skip
pattern-length characters, else emit one character and move on.  Python's
special behaviour for an empty pattern is not modelled; both patterns this
program uses (".binn", "screen_") are nonempty literals. -/
def pyReplaceAux (pat repl : List Char) : Nat → List Char → List Char
  | 0, _ => []
  | _ + 1, [] => []
  | n + 1, c :: rest =>
      if startsWith pat (c :: rest) = true ∧ pat ≠ [] then
        repl ++ pyReplaceAux pat repl n (rest.drop (pat.length - 1))
      else
        c :: pyReplaceAux pat repl n rest

/-- Python s.replace(pat, repl) on character lists: every non-overlapping
occurrence, found scanning left to right, is replaced in a single pass. -/
def pyReplace (pat repl s : List Char) : List Char :=
  pyReplaceAux pat repl s.length s

/-- Python s.replace(pat, repl) on strings. -/
def pyReplaceS (s pat repl : String) : String :=
  ⟨pyReplace pat.data repl.data s.data⟩

/-- The characters of ".binn" (the raw-capture extension). -/
def binnChars : List Char := ['.', 'b', 'i', 'n', 'n']

/-- The characters of ".json" (the sidecar extension). -/
def jsonChars : List Char := ['.', 'j', 's', 'o', 'n']

/-- The characters of "screen_" (the raw-capture name stem). -/
def screenChars : List Char := ['s', 'c', 'r', 'e', 'e', 'n', '_']

/-- Sidecar path derivation (main_server.py line 673): the full raw-file
path with every occurrence of ".binn" replaced by ".json". -/
def sidecarPathOf (binnPath : String) : String :=
  pyReplaceS binnPath ".binn" ".json"

/-- Timestamp extraction for the PNG name (main_server.py line 694): the
file name with every "screen_" deleted, then every ".binn" deleted. -/
def pngTimestampOf (fileName : String) : String :=
  pyReplaceS (pyReplaceS fileName "screen_" "") ".binn" ""

/-- What the sweep finds at a raw file's derived sidecar path: no file at
all; a file whose JSON is malformed (json.load raises JSONDecodeError); a
file whose JSON parses but is not an object (metadata.get then raises
AttributeError, which the metadata except clause does not list); or an
object, carrying whatever values sit under its width and height keys
(none when a key is absent, since dict.get returns None). -/
inductive Sidecar where
  | missing
  | badJson
  | nonObject
  | dims (width : Option JVal) (height : Option JVal)
deriving DecidableEq

/-- Whether a file exists at the derived sidecar path (the
os.path.exists(json_path) tests at lines 677 and 707). -/
def sidecarExists : Sidecar → Bool
  | .missing => false
  | _ => true

/-- Success or failure of the fallible filesystem operations of one file's
conversion attempt, in the order the code performs them: reading the raw
bytes, img.save, os.remove of the .binn file, os.remove of the sidecar.
Any of them can raise (permissions, sharing violations on a network share,
the medium vanishing); all four sit inside the per-file try of lines
692-716. -/
structure FileOracle where
  readOk : Bool
  saveOk : Bool
  removeBinnOk : Bool
  removeJsonOk : Bool
deriving DecidableEq

/-- One raw capture as the sweep sees it: its file name (the listing at
line 665 only yields names ending in ".binn"), the length of its raw
bytes, the state of the file at its derived sidecar path, and the fate of
its filesystem operations. -/
structure FileJob where
  name : String
  rawLen : Nat
  sidecar : Sidecar
  oracle : FileOracle
deriving DecidableEq

/-- A written PNG: its file name and the dimensions the image was built
with. -/
structure PngFile where
  name : String
  width : Int
  height : Int
deriving DecidableEq

/-- State of one raw capture after the sweep pass: the PNG written for it
(if any), whether the raw .binn file still exists, whether a file still
exists at the derived sidecar path, and whether the file was counted as
converted. -/
structure FileOutcome where
  png : Option PngFile
  rawPresent : Bool
  sidecarPresent : Bool
  converted : Bool
deriving DecidableEq

/-- The outcome of a file the sweep never touched (or whose attempt failed
before anything was written or removed). -/
def untouchedOutcome (j : FileJob) : FileOutcome :=
  ⟨none, true, sidecarExists j.sidecar, false⟩

/-- The metadata phase of one file (main_server.py lines 675-690): a
missing sidecar or one with malformed JSON falls back to 1920x1080 (with a
warning or error logged); parsed width/height are used only when both are
positive ints, else 1920x1080; but a sidecar whose JSON is not an object
raises AttributeError at metadata.get, which the except clause
(JSONDecodeError, FileNotFoundError, KeyError) does not catch. -/
def resolveDims : Sidecar → Except PyExc (Int × Int)
  | .missing => .ok (1920, 1080)
  | .badJson => .ok (1920, 1080)
  | .nonObject => .error .attributeError
  | .dims w h =>
      match w, h with
      | some (.jint a), some (.jint b) =>
          if a > 0 ∧ b > 0 then .ok (a, b) else .ok (1920, 1080)
      | _, _ => .ok (1920, 1080)

/-- The conversion of one raw file (main_server.py lines 671-716).  After
the metadata phase, the conversion try-block derives the PNG name, reads
the raw bytes, builds the image — Image.frombytes succeeds exactly when
the byte count is width*height*3 — saves the PNG, removes the .binn file,
and removes the sidecar if one exists; the first failure raises, is caught
by the per-file except, and leaves every later step undone.  An error
return is an exception the per-file handling does not catch. -/
def runFile (device : String) (j : FileJob) : Except PyExc FileOutcome :=
  match resolveDims j.sidecar with
  | .error e => .error e
  | .ok (w, h) =>
      let pngName := device ++ "_" ++ pngTimestampOf j.name ++ ".png"
      if j.oracle.readOk = false then .ok (untouchedOutcome j)
      else if (j.rawLen : Int) ≠ w * h * 3 then .ok (untouchedOutcome j)
      else if j.oracle.saveOk = false then .ok (untouchedOutcome j)
      else if j.oracle.removeBinnOk = false then
        .ok ⟨some ⟨pngName, w, h⟩, true, sidecarExists j.sidecar, false⟩
      else if sidecarExists j.sidecar = true ∧ j.oracle.removeJsonOk = false then
        .ok ⟨some ⟨pngName, w, h⟩, false, true, false⟩
      else
        .ok ⟨some ⟨pngName, w, h⟩, false, false, true⟩

/-- The per-client file loop (lines 671-716): files are processed in
listing order; a caught per-file failure moves on to the next file; an
uncaught exception stops the loop, leaving the remaining files untouched,
and reports the abort (true flag) upward. -/
def runFiles (device : String) : List FileJob → List FileOutcome × Bool
  | [] => ([], false)
  | j :: rest =>
      match runFile device j with
      | .error _ => (untouchedOutcome j :: rest.map untouchedOutcome, true)
      | .ok o =>
          let p := runFiles device rest
          (o :: p.1, p.2)

/-- One client directory as the sweep sees it: its device id, whether its
raw directory exists (the isdir test at line 655), whether
os.makedirs(converted_path) succeeds (lines 659-663), and its listed raw
files. -/
structure ClientJob where
  device : String
  isDir : Bool
  mkdirOk : Bool
  files : List FileJob
deriving DecidableEq

/-- A client none of whose files were touched. -/
def untouchedClient (c : ClientJob) : String × List FileOutcome :=
  (c.device, c.files.map untouchedOutcome)

/-- The client loop of _run_conversions (lines 650-716): a missing raw
directory or a failed makedirs skips that client (continue); an uncaught
per-file exception propagates to the sweep-level except at line 717, which
logs it and ends the sweep, so every remaining client is left untouched. -/
def runClients : List ClientJob → List (String × List FileOutcome)
  | [] => []
  | c :: rest =>
      if c.isDir = false ∨ c.mkdirOk = false then
        untouchedClient c :: runClients rest
      else
        let p := runFiles c.device c.files
        if p.2 then (c.device, p.1) :: rest.map untouchedClient
        else (c.device, p.1) :: runClients rest

/-- A raw file whose sidecar holds valid JSON that is not an object (for
example the array [1, 2]): metadata.get raises AttributeError. -/
def badSidecarJob : FileJob :=
  ⟨"screen_1.binn", 15000, .nonObject, ⟨true, true, true, true⟩⟩

/-- A perfectly convertible raw file: valid 100x50 sidecar, exactly
100*50*3 bytes, all filesystem operations succeeding. -/
def goodFileJob : FileJob :=
  ⟨"screen_2.binn", 15000, .dims (some (.jint 100)) (some (.jint 50)),
   ⟨true, true, true, true⟩⟩

/-- C8: load_server_config is total (it never fails), and for every
persisted document each of the three fields of the result is the persisted
value when present and the documented default (daily, "17:00", empty map)
otherwise — never absent; a missing file or malformed JSON yields the full
defaults. -/
theorem load_server_config_defaults :
    (∀ d : PartialDoc,
      load_server_config (.doc d) =
        ⟨d.conversion_type.getD (.jstr "daily"),
         d.conversion_value.getD (.jstr "17:00"),
         d.client_aliases.getD (.jmap [])⟩) ∧
    load_server_config .missing = defaultServerConfig ∧
    load_server_config .malformed = defaultServerConfig :=
  ⟨fun _ => rfl, rfl, rfl⟩

/-- C9: saving a full three-field ServerConfig document and reloading it
yields a document equal field-for-field to the one saved. -/
theorem save_load_roundtrip (c : ServerConfig) :
    load_server_config (save_server_config c) = c := rfl

/-- C1 (amended): under the periodic schedule with an interval int()
accepts, a tick fires iff the periodic tracker is unset, or the elapsed
time since the run the tracker records is at least the interval; with a
recorded run it never fires before the interval has elapsed.  The tracker
is unset at process start and cleared by ticks spent under the daily type,
but a scheduler restart does not clear it, so the first tick after a mere
restart need not fire. -/
theorem periodic_due_iff (a v : JVal) (k now : Int) (hm : String)
    (s : SchedState) (hv : pyInt v = .ok k) :
    ∃ r : TickResult,
      schedTick ⟨.jstr "periodic", v, a⟩ now hm s = .ok r ∧
      (r.fired = true ↔
        s.lastPeriodic = none ∨ ∃ t, s.lastPeriodic = some t ∧ now - t ≥ k) ∧
      (∀ t, s.lastPeriodic = some t → now - t < k → r.fired = false) := by
  cases hsp : s.lastPeriodic with
  | none =>
      refine ⟨⟨true, false, 1, ⟨none, some now⟩⟩, ?_, by simp, ?_⟩
      · simp [schedTick, jeqStr, hv, hsp]
      · intro t ht _
        exact absurd ht (by simp)
  | some t0 =>
      by_cases hdue : now - t0 ≥ k
      · refine ⟨⟨true, false, 1, ⟨none, some now⟩⟩, ?_, ?_, ?_⟩
        · simp [schedTick, jeqStr, hv, hsp, hdue]
        · constructor
          · intro _
            exact Or.inr ⟨t0, rfl, hdue⟩
          · intro _
            rfl
        · intro t ht hlt
          injection ht with h
          omega
      · refine ⟨⟨false, false, 1, ⟨none, some t0⟩⟩, ?_, ?_, ?_⟩
        · simp [schedTick, jeqStr, hv, hsp, hdue]
        · simp
          omega
        · intro _ _ _
          rfl

/-- Witness for periodic_due_iff at interval "60", a run recorded at time
30 and the next tick at time 100. -/
theorem periodic_due_iff_witness :
    ∃ r : TickResult,
      schedTick ⟨.jstr "periodic", .jstr "60", .jmap []⟩ 100 "00:00"
          ⟨none, some 30⟩ = .ok r ∧
      (r.fired = true ↔
        (⟨none, some 30⟩ : SchedState).lastPeriodic = none ∨
          ∃ t, (⟨none, some 30⟩ : SchedState).lastPeriodic = some t ∧
            (100 : Int) - t ≥ 60) ∧
      (∀ t, (⟨none, some 30⟩ : SchedState).lastPeriodic = some t →
        (100 : Int) - t < 60 → r.fired = false) :=
  periodic_due_iff (.jmap []) (.jstr "60") 60 100 "00:00" ⟨none, some 30⟩ rfl

/-- C1 counterexample: a run is on record (tracker set at time 0), the
scheduler is restarted, and the next tick happens at time 1 under interval
100.  No run has occurred since the restart, yet the tick does not fire —
refuting "the first tick after scheduler (re)start always fires". -/
theorem periodic_restart_first_tick_no_fire :
    schedTick ⟨.jstr "periodic", .jstr "100", .jmap []⟩ 1 "00:00"
        (restartScheduler ⟨none, some 0⟩) =
      .ok ⟨false, false, 1, ⟨none, some 0⟩⟩ ∧ (1 : Int) - 0 < 100 := by
  constructor
  · rfl
  · decide

/-- Helper: a daily tick whose minute equals the target while the guard
already records that minute does nothing: no fire, guard kept. -/
theorem daily_tick_guarded (a v : JVal) (now : Int) (hm : String)
    (s : SchedState) (hhm : hm = pyStr v) (h : s.lastDaily = some hm) :
    schedTick ⟨.jstr "daily", v, a⟩ now hm s =
      .ok ⟨false, false, 1, ⟨s.lastDaily, none⟩⟩ := by
  simp [schedTick, jeqStr, hhm, h]

/-- Helper: a daily tick whose minute equals the target while the guard
does not record that minute fires and sets the guard. -/
theorem daily_tick_fires (a v : JVal) (now : Int) (hm : String)
    (s : SchedState) (hhm : hm = pyStr v) (h : s.lastDaily ≠ some hm) :
    schedTick ⟨.jstr "daily", v, a⟩ now hm s =
      .ok ⟨true, false, 1, ⟨some hm, none⟩⟩ := by
  subst hhm
  have hne : some (pyStr v) ≠ s.lastDaily := fun e => h e.symm
  simp [schedTick, jeqStr, hne]

/-- Helper: once the guard records the target minute, a run of ticks whose
minutes all equal the target fires nothing and keeps the guard. -/
theorem runTicks_daily_guarded (a v : JVal) :
    ∀ clocks : List (Int × String), (∀ c ∈ clocks, c.2 = pyStr v) →
    ∀ s : SchedState, s.lastDaily = some (pyStr v) →
    ∃ s' : SchedState,
      runTicks ⟨.jstr "daily", v, a⟩ clocks s =
        .ok (List.replicate clocks.length false, s') ∧
      s'.lastDaily = some (pyStr v)
  | [], _, s, hs => ⟨s, rfl, hs⟩
  | (now, hm) :: rest, hall, s, hs => by
      have hhm : hm = pyStr v := hall (now, hm) (by simp)
      have htick := daily_tick_guarded a v now hm s hhm (hhm ▸ hs)
      obtain ⟨s', hrun, hs'⟩ := runTicks_daily_guarded a v rest
        (fun c hc => hall c (List.mem_cons_of_mem _ hc)) ⟨s.lastDaily, none⟩ hs
      exact ⟨s', by simp [runTicks, htick, hrun, List.replicate_succ], hs'⟩

/-- Helper: a run of all-false fired flags contains no fire. -/
theorem count_true_replicate_false (n : Nat) :
    (List.replicate n false).count true = 0 := by
  induction n with
  | zero => rfl
  | succ m ih => simp [List.replicate_succ, List.count_cons, ih]

/-- C2: under the daily schedule, (1) over any run of ticks whose minutes
all equal the configured target, at most one sweep fires, whatever the
initial tracker state — in particular a second tick in the same minute
never re-fires; (2) a tick whose minute moved away from the target clears
the guard; (3) from a cleared guard, a tick at the target minute fires
again. -/
theorem daily_once_per_minute (a v : JVal) :
    (∀ clocks : List (Int × String), (∀ c ∈ clocks, c.2 = pyStr v) →
      ∀ (s : SchedState) (fs : List Bool) (s' : SchedState),
        runTicks ⟨.jstr "daily", v, a⟩ clocks s = .ok (fs, s') →
        fs.count true ≤ 1) ∧
    (∀ (s : SchedState) (now : Int) (hm2 : String), hm2 ≠ pyStr v →
      s.lastDaily = some (pyStr v) →
      schedTick ⟨.jstr "daily", v, a⟩ now hm2 s =
        .ok ⟨false, false, 1, ⟨none, none⟩⟩) ∧
    (∀ (s : SchedState) (now : Int), s.lastDaily = none →
      schedTick ⟨.jstr "daily", v, a⟩ now (pyStr v) s =
        .ok ⟨true, false, 1, ⟨some (pyStr v), none⟩⟩) := by
  refine ⟨?_, ?_, ?_⟩
  · intro clocks hall s fs s' hrun
    cases clocks with
    | nil =>
        simp only [runTicks, Except.ok.injEq, Prod.mk.injEq] at hrun
        rw [← hrun.1]
        simp
    | cons c rest =>
        obtain ⟨now, hm⟩ := c
        have hhm : hm = pyStr v := hall (now, hm) (by simp)
        by_cases hg : s.lastDaily = some (pyStr v)
        · obtain ⟨t, hrun', _⟩ :=
            runTicks_daily_guarded a v ((now, hm) :: rest) hall s hg
          rw [hrun'] at hrun
          simp only [Except.ok.injEq, Prod.mk.injEq] at hrun
          rw [← hrun.1]
          simp [count_true_replicate_false]
        · have htick := daily_tick_fires a v now hm s hhm (by rw [hhm]; exact hg)
          obtain ⟨t, hrun', _⟩ := runTicks_daily_guarded a v rest
            (fun c hc => hall c (List.mem_cons_of_mem _ hc))
            ⟨some hm, none⟩ (by simp [hhm])
          simp only [runTicks, htick, hrun', Except.ok.injEq, Prod.mk.injEq]
            at hrun
          rw [← hrun.1]
          simp [List.count_cons, count_true_replicate_false]
  · intro s now hm2 hne hg
    have h1 : ¬ (hm2 = pyStr v ∧ some hm2 ≠ s.lastDaily) := fun h => hne h.1
    have h2 : some hm2 ≠ s.lastDaily := by
      rw [hg]
      simp
      exact fun h => hne h
    simp [schedTick, jeqStr, h2]
    exact fun h => absurd h hne
  · intro s now hg
    exact daily_tick_fires a v now (pyStr v) s rfl (by simp [hg])

/-- Witness for daily_once_per_minute: target 17:00; two ticks inside the
target minute fire exactly once; a 17:01 tick clears the guard; a fresh
17:00 tick fires. -/
theorem daily_once_per_minute_witness :
    [true, false].count true ≤ 1 ∧
    schedTick ⟨.jstr "daily", .jstr "17:00", .jmap []⟩ 2 "17:01"
        ⟨some "17:00", none⟩ = .ok ⟨false, false, 1, ⟨none, none⟩⟩ ∧
    schedTick ⟨.jstr "daily", .jstr "17:00", .jmap []⟩ 3 "17:00"
        ⟨none, none⟩ = .ok ⟨true, false, 1, ⟨some "17:00", none⟩⟩ :=
  ⟨(daily_once_per_minute (.jmap []) (.jstr "17:00")).1
      [(0, "17:00"), (1, "17:00")] (by decide) ⟨none, none⟩ [true, false]
      ⟨some "17:00", none⟩ rfl,
   (daily_once_per_minute (.jmap []) (.jstr "17:00")).2.1
      ⟨some "17:00", none⟩ 2 "17:01" (by decide) rfl,
   (daily_once_per_minute (.jmap []) (.jstr "17:00")).2.2 ⟨none, none⟩ 3 rfl⟩

/-- C3: a periodic tick whose conversion_value is null raises an uncaught
TypeError from int(None) — only ValueError is caught — so the exception
propagates out of _conversion_scheduler_loop and the loop thread dies,
for every clock and tracker state.  A config file with conversion_type
"periodic" and conversion_value null therefore kills the scheduler on its
next tick, contradicting "no single bad iteration kills the loop". -/
theorem periodic_null_value_kills_loop (a : JVal) (now : Int) (hm : String)
    (s : SchedState) :
    schedTick ⟨.jstr "periodic", .jnull, a⟩ now hm s = .error .typeError := rfl

/-- C7 (amended): when the active type is periodic and conversion_value is
a string int() rejects, the tick logs the error and skips (sleep 60,
trackers untouched, no fire, no crash); but a malformed daily value is not
reported: since it can never equal the current strftime %H:%M string, the
tick silently does not fire and logs nothing. -/
theorem malformed_value_tick (a v : JVal) :
    (∀ (now : Int) (hm : String) (s : SchedState),
      pyInt v = .error .valueError →
      schedTick ⟨.jstr "periodic", v, a⟩ now hm s = .ok ⟨false, true, 60, s⟩) ∧
    (∀ (now : Int) (hm : String) (s : SchedState),
      isValidHM (pyStr v) = false → isValidHM hm = true →
      ∃ r : TickResult,
        schedTick ⟨.jstr "daily", v, a⟩ now hm s = .ok r ∧
        r.fired = false ∧ r.loggedError = false ∧ r.sleep = 1) := by
  constructor
  · intro now hm s hv
    simp [schedTick, jeqStr, hv]
  · intro now hm s hv hhm
    have hne : hm ≠ pyStr v := fun h => by rw [h, hv] at hhm; cases hhm
    by_cases hd : some hm = s.lastDaily
    · exact ⟨⟨false, false, 1, ⟨s.lastDaily, none⟩⟩,
        by simp [schedTick, jeqStr, hd.symm], rfl, rfl, rfl⟩
    · refine ⟨⟨false, false, 1, ⟨none, none⟩⟩, ?_, rfl, rfl, rfl⟩
      simp [schedTick, jeqStr, hd]
      exact fun h => absurd h hne

/-- Witness for malformed_value_tick at the non-numeric, non-HH:MM value
"abc", clock minute 10:00. -/
theorem malformed_value_tick_witness :
    schedTick ⟨.jstr "periodic", .jstr "abc", .jmap []⟩ 0 "10:00"
        ⟨none, none⟩ = .ok ⟨false, true, 60, ⟨none, none⟩⟩ ∧
    ∃ r : TickResult,
      schedTick ⟨.jstr "daily", .jstr "abc", .jmap []⟩ 0 "10:00"
          ⟨none, none⟩ = .ok r ∧
      r.fired = false ∧ r.loggedError = false ∧ r.sleep = 1 :=
  ⟨(malformed_value_tick (.jmap []) (.jstr "abc")).1 0 "10:00" ⟨none, none⟩ rfl,
   (malformed_value_tick (.jmap []) (.jstr "abc")).2 0 "10:00" ⟨none, none⟩
      rfl rfl⟩

/-- C7 counterexample: the active type is daily and the configured value
"99:99" is not parseable as HH:MM, yet the tick logs no error (and does
not sleep-and-retry on the 60 second error path): it just runs as a normal
non-firing one-second tick — refuting "the scheduler logs the error and
skips that tick" for the daily case. -/
theorem daily_malformed_not_logged :
    schedTick ⟨.jstr "daily", .jstr "99:99", .jmap []⟩ 0 "10:00" ⟨none, none⟩ =
      .ok ⟨false, false, 1, ⟨none, none⟩⟩ ∧
    isValidHM "99:99" = false ∧ isValidHM "10:00" = true :=
  ⟨rfl, rfl, rfl⟩

/-- startsWith decides list prefixhood. -/
theorem startsWith_iff : ∀ pat s : List Char,
    startsWith pat s = true ↔ ∃ t, pat ++ t = s
  | [], s => by simp [startsWith]
  | p :: ps, [] => by simp [startsWith]
  | p :: ps, c :: cs => by
      rw [startsWith, Bool.and_eq_true, beq_iff_eq, startsWith_iff ps cs]
      constructor
      · rintro ⟨rfl, t, rfl⟩
        exact ⟨t, rfl⟩
      · rintro ⟨t, ht⟩
        rw [List.cons_append] at ht
        injection ht with h1 h2
        exact ⟨h1, t, h2⟩

/-- The fuel of pyReplaceAux is irrelevant once it covers the list. -/
theorem pyReplaceAux_fuel (pat repl : List Char) :
    ∀ (n m : Nat) (s : List Char), s.length ≤ n → s.length ≤ m →
      pyReplaceAux pat repl n s = pyReplaceAux pat repl m s
  | 0, m, s, hn, hm => by
      have hs : s = [] := List.eq_nil_of_length_eq_zero (Nat.le_zero.mp hn)
      subst hs
      cases m <;> rfl
  | n + 1, m, s, hn, hm => by
      cases s with
      | nil => cases m <;> rfl
      | cons c rest =>
          cases m with
          | zero => simp at hm
          | succ m' =>
              simp only [pyReplaceAux]
              by_cases h : startsWith pat (c :: rest) = true ∧ pat ≠ []
              · rw [if_pos h, if_pos h]
                have := pyReplaceAux_fuel pat repl n m'
                  (rest.drop (pat.length - 1))
                  (by simp only [List.length_drop]; simp at hn; omega)
                  (by simp only [List.length_drop]; simp at hm; omega)
                rw [this]
              · rw [if_neg h, if_neg h]
                have := pyReplaceAux_fuel pat repl n m' rest
                  (by simp at hn; omega) (by simp at hm; omega)
                rw [this]

/-- pyReplace on the empty list. -/
theorem pyReplace_nil (pat repl : List Char) : pyReplace pat repl [] = [] := rfl

/-- pyReplace when the pattern matches at the head: the replacement is
emitted and the scan resumes after the consumed pattern. -/
theorem pyReplace_cons_match (pat repl x : List Char) (h : pat ≠ []) :
    pyReplace pat repl (pat ++ x) = repl ++ pyReplace pat repl x := by
  cases pat with
  | nil => exact absurd rfl h
  | cons p ps =>
      show pyReplaceAux _ _ ((p :: ps) ++ x).length ((p :: (ps ++ x))) = _
      have hlen : ((p :: ps) ++ x).length = (ps ++ x).length + 1 := by simp
      rw [hlen, pyReplaceAux]
      rw [if_pos ⟨(startsWith_iff _ _).mpr ⟨x, by simp⟩, by simp⟩]
      have hdrop : (ps ++ x).drop ((p :: ps).length - 1) = x := by
        simp only [List.length_cons, Nat.add_sub_cancel]
        exact List.drop_left ps x
      rw [hdrop]
      rw [pyReplaceAux_fuel (p :: ps) repl (ps ++ x).length x.length x
        (by simp) (by simp)]
      rfl

/-- pyReplace when the pattern does not match at the head: the head
character is kept and the scan moves one position. -/
theorem pyReplace_cons_nomatch (pat repl : List Char) (c : Char)
    (s : List Char) (h : startsWith pat (c :: s) = false) :
    pyReplace pat repl (c :: s) = c :: pyReplace pat repl s := by
  show pyReplaceAux _ _ (c :: s).length (c :: s) = _
  rw [List.length_cons, pyReplaceAux, if_neg (by simp [h])]
  rfl

/-- A prefix is an infix. -/
theorem inf_of_pre {pat L : List Char} (h : pat <+: L) : pat <:+: L := by
  obtain ⟨t, ht⟩ := h
  exact ⟨[], t, by simpa using ht⟩

/-- A suffix is an infix. -/
theorem inf_of_suf {pat L : List Char} (h : pat <:+ L) : pat <:+: L := by
  obtain ⟨t, ht⟩ := h
  exact ⟨t, [], by simpa using ht⟩

/-- An infix of the tail is an infix of the list. -/
theorem inf_cons_lift (pat : List Char) (c : Char) {m : List Char}
    (h : pat <:+: m) : pat <:+: c :: m := by
  obtain ⟨u, v, huv⟩ := h
  exact ⟨c :: u, v, by simp [huv]⟩

/-- An infix of the right part is an infix of the append. -/
theorem inf_appendL {pat : List Char} (x : List Char) {y : List Char}
    (h : pat <:+: y) : pat <:+: x ++ y := by
  obtain ⟨u, v, huv⟩ := h
  exact ⟨x ++ u, v, by simp [← huv]⟩

/-- An infix of the left part is an infix of the append. -/
theorem inf_appendR {pat x : List Char} (y : List Char)
    (h : pat <:+: x) : pat <:+: x ++ y := by
  obtain ⟨u, v, huv⟩ := h
  exact ⟨u, v ++ y, by simp [← huv]⟩

/-- A prefix extends to the right. -/
theorem pre_extend {pat L : List Char} (t : List Char) (h : pat <+: L) :
    pat <+: L ++ t := by
  obtain ⟨w, hw⟩ := h
  exact ⟨w ++ t, by simp [← hw]⟩

/-- A suffix extends to the left by one character. -/
theorem suf_extend {x₁ m : List Char} (c : Char) (h : x₁ <:+ m) :
    x₁ <:+ c :: m := by
  obtain ⟨t, ht⟩ := h
  exact ⟨c :: t, by simp [ht]⟩

/-- The take of a list is one of its prefixes. -/
theorem take_pre (L : List Char) (n : Nat) : L.take n <+: L :=
  ⟨L.drop n, List.take_append_drop n L⟩

/-- An infix of a list is an infix of its cons either as a prefix or
within the tail. -/
theorem inf_cons_cases (pat : List Char) (c : Char) (m : List Char)
    (h : pat <:+: c :: m) : pat <+: c :: m ∨ pat <:+: m := by
  obtain ⟨u, v, huv⟩ := h
  cases u with
  | nil => exact Or.inl ⟨v, by simpa using huv⟩
  | cons a u' =>
      simp only [List.cons_append] at huv
      injection huv with h1 h2
      exact Or.inr ⟨u', v, h2⟩

/-- Decomposing a prefix of an append: either the pattern sits inside the
left part, or it is the whole left part followed by a take of the right
part. -/
theorem pre_append_split (pat L y : List Char) (h : pat <+: L ++ y) :
    (pat.length ≤ L.length → pat <+: L) ∧
    (L.length < pat.length →
      pat = L ++ y.take (pat.length - L.length) ∧ pat.take L.length = L) := by
  obtain ⟨t, ht⟩ := h
  have hkey : pat = (L ++ y).take pat.length := by
    rw [← ht, List.take_left]
  rw [List.take_append_eq_append_take] at hkey
  constructor
  · intro hle
    have h0 : pat.length - L.length = 0 := by omega
    rw [h0, List.take_zero, List.append_nil] at hkey
    rw [hkey]
    exact take_pre L pat.length
  · intro hlt
    have hL : L.take pat.length = L := List.take_of_length_le (by omega)
    rw [hL] at hkey
    refine ⟨hkey, ?_⟩
    rw [hkey, List.take_left]

/-- A pattern occurring in an append occurs in the left part, in the
right part, or straddles the boundary, split at some k. -/
theorem inf_append_cases (pat : List Char) :
    ∀ x y : List Char, pat <:+: x ++ y →
      pat <:+: x ∨ pat <:+: y ∨
      ∃ k, 0 < k ∧ k < pat.length ∧ pat.take k <:+ x ∧ pat.drop k <+: y
  | [], y, h => Or.inr (Or.inl (by simpa using h))
  | c :: x', y, h => by
      rcases inf_cons_cases pat c (x' ++ y) (by simpa using h) with hp | hi
      · have hp' : pat <+: (c :: x') ++ y := by simpa using hp
        have hsplit := pre_append_split pat (c :: x') y hp'
        rcases le_or_lt pat.length (c :: x').length with hle | hlt
        · exact Or.inl (inf_of_pre (hsplit.1 hle))
        · obtain ⟨heq, htake⟩ := hsplit.2 hlt
          refine Or.inr (Or.inr ⟨(c :: x').length, by simp, hlt, ?_, ?_⟩)
          · rw [htake]
          · rw [heq, List.drop_left]
            exact take_pre y _
      · rcases inf_append_cases pat x' y hi with h1 | h1 | ⟨k, hk0, hkl, hsuf, hpre⟩
        · exact Or.inl (inf_cons_lift pat c h1)
        · exact Or.inr (Or.inl h1)
        · exact Or.inr (Or.inr ⟨k, hk0, hkl, suf_extend c hsuf, hpre⟩)

/-- Deleting occurrences of a pattern never lengthens the list. -/
theorem pyReplaceAux_del_len (pat : List Char) :
    ∀ (n : Nat) (s : List Char), (pyReplaceAux pat [] n s).length ≤ s.length
  | 0, s => by simp [pyReplaceAux]
  | n + 1, [] => by simp [pyReplaceAux]
  | n + 1, c :: rest => by
      simp only [pyReplaceAux]
      by_cases h : startsWith pat (c :: rest) = true ∧ pat ≠ []
      · rw [if_pos h]
        have hrec := pyReplaceAux_del_len pat n (rest.drop (pat.length - 1))
        simp only [List.nil_append, List.length_drop] at hrec ⊢
        simp only [List.length_cons]
        omega
      · rw [if_neg h]
        have hrec := pyReplaceAux_del_len pat n rest
        simp only [List.length_cons]
        omega

/-- Deleting occurrences of a pattern that does occur shortens the list by
at least the pattern length. -/
theorem pyReplaceAux_del_len_lt (pat : List Char) (hp : pat ≠ []) :
    ∀ (n : Nat) (s : List Char), s.length ≤ n → pat <:+: s →
      (pyReplaceAux pat [] n s).length + pat.length ≤ s.length
  | 0, s, hn, hinf => by
      have hs : s = [] := List.eq_nil_of_length_eq_zero (Nat.le_zero.mp hn)
      subst hs
      obtain ⟨u, v, huv⟩ := hinf
      simp at huv
      exact absurd huv.2.1 hp
  | n + 1, [], _, hinf => by
      obtain ⟨u, v, huv⟩ := hinf
      simp at huv
      exact absurd huv.2.1 hp
  | n + 1, c :: rest, hn, hinf => by
      simp only [pyReplaceAux]
      by_cases h : startsWith pat (c :: rest) = true ∧ pat ≠ []
      · rw [if_pos h]
        have hd := pyReplaceAux_del_len pat n (rest.drop (pat.length - 1))
        obtain ⟨t, ht⟩ := (startsWith_iff _ _).mp h.1
        have hlen : pat.length + t.length = rest.length + 1 := by
          have := congrArg List.length ht
          simpa using this
        simp only [List.nil_append, List.length_drop] at hd ⊢
        simp only [List.length_cons]
        omega
      · rw [if_neg h]
        have hsw : ¬ startsWith pat (c :: rest) = true := fun ha => h ⟨ha, hp⟩
        have hpre : ¬ pat <+: c :: rest := fun hpre =>
          hsw ((startsWith_iff _ _).mpr hpre)
        have hrec : pat <:+: rest := by
          rcases inf_cons_cases pat c rest hinf with h1 | h1
          · exact absurd h1 hpre
          · exact h1
        have := pyReplaceAux_del_len_lt pat hp n rest
          (by simp at hn; omega) hrec
        simp only [List.length_cons]
        omega

/-- pyReplace with an empty replacement never lengthens the list. -/
theorem pyReplace_del_len (pat s : List Char) :
    (pyReplace pat [] s).length ≤ s.length :=
  pyReplaceAux_del_len pat s.length s

/-- pyReplace with an empty replacement of an occurring pattern shortens
the list by at least the pattern length. -/
theorem pyReplace_del_len_lt (pat s : List Char) (hp : pat ≠ [])
    (h : pat <:+: s) : (pyReplace pat [] s).length + pat.length ≤ s.length :=
  pyReplaceAux_del_len_lt pat hp s.length s (Nat.le_refl _) h

/-- The scan of pyReplace passes over a region free of the pattern
unchanged: if the pattern never matches starting inside s (it does not
occur in s, and no split of it into a nonempty take matching a suffix of s
and a matching take of the tail exists), the output is s followed by the
replaced tail. -/
theorem pyReplace_append_skip (pat tail repl : List Char) (hp : pat ≠ [])
    (hcross : ∀ k, k < pat.length → 0 < k →
      pat ≠ pat.take k ++ tail.take (pat.length - k)) :
    ∀ s : List Char, ¬ pat <:+: s →
      pyReplace pat repl (s ++ tail) = s ++ pyReplace pat repl tail
  | [], _ => by simp
  | c :: s', hinf => by
      have hnp : ¬ pat <+: (c :: s') ++ tail := by
        intro hpre
        have hsplit := pre_append_split pat (c :: s') tail hpre
        rcases le_or_lt pat.length (c :: s').length with hle | hlt
        · exact hinf (inf_of_pre (hsplit.1 hle))
        · obtain ⟨heq, htake⟩ := hsplit.2 hlt
          refine hcross (c :: s').length hlt (by simp) ?_
          rw [htake]
          exact heq
      have hsw : startsWith pat (c :: (s' ++ tail)) = false := by
        rw [Bool.eq_false_iff]
        intro hsw
        exact hnp (by
          obtain ⟨t, ht⟩ := (startsWith_iff _ _).mp hsw
          exact ⟨t, by simpa using ht⟩)
      rw [List.cons_append, pyReplace_cons_nomatch _ _ _ _ hsw,
        pyReplace_append_skip pat tail repl hp hcross s'
          (fun h1 => hinf (inf_cons_lift pat c h1)),
        List.cons_append]

/-- Replacing ".binn" by ".json" in a list that contains ".binn" before
the final ".binn" never produces the list with only the final occurrence
replaced: the scan rewrites the earlier occurrence first. -/
theorem pyReplace_dirty :
    ∀ C : List Char, binnChars <:+: C →
      pyReplace binnChars jsonChars (C ++ binnChars) ≠ C ++ jsonChars
  | [], h => by
      obtain ⟨u, v, huv⟩ := h
      simp [binnChars] at huv
  | c :: C', h => by
      by_cases hsw : startsWith binnChars (c :: (C' ++ binnChars)) = true
      · obtain ⟨t, ht⟩ := (startsWith_iff _ _).mp hsw
        have hL : pyReplace binnChars jsonChars ((c :: C') ++ binnChars) =
            jsonChars ++ pyReplace binnChars jsonChars t := by
          rw [List.cons_append, ← ht,
            pyReplace_cons_match _ _ _ (by simp [binnChars])]
        simp only [binnChars, List.cons_append, List.nil_append] at ht
        injection ht with hc ht2
        intro hEq
        rw [hL] at hEq
        simp only [jsonChars, binnChars, List.cons_append, List.nil_append]
          at hEq ht2
        injection hEq with hc2 hEq
        cases C' with
        | nil =>
            simp at hEq
        | cons b C'' =>
            injection ht2 with hb _
            injection hEq with hj _
            rw [← hb] at hj
            simp at hj
      · have hsw' : startsWith binnChars (c :: (C' ++ binnChars)) = false := by
          simpa using hsw
        have hrec : binnChars <:+: C' := by
          rcases inf_cons_cases binnChars c C' h with hp | hi
          · exfalso
            apply hsw
            refine (startsWith_iff _ _).mpr ?_
            have := pre_extend binnChars hp
            simpa using this
          · exact hi
        have hL : pyReplace binnChars jsonChars ((c :: C') ++ binnChars) =
            c :: pyReplace binnChars jsonChars (C' ++ binnChars) := by
          rw [List.cons_append, pyReplace_cons_nomatch _ _ _ _ hsw']
        intro hEq
        rw [hL, List.cons_append] at hEq
        injection hEq with _ h2
        exact pyReplace_dirty C' hrec h2

/-- ".binn" does not occur in prefix ++ "screen_" ++ ts when it occurs in
neither the prefix nor ts: no straddling occurrence exists. -/
theorem binn_clean_concat {pre ts : List Char}
    (h1 : ¬ binnChars <:+: pre) (h2 : ¬ binnChars <:+: ts) :
    ¬ binnChars <:+: pre ++ (screenChars ++ ts) := by
  intro h
  rcases inf_append_cases binnChars pre (screenChars ++ ts) h with
    h | h | ⟨k, hk0, hkl, hsuf, hpre⟩
  · exact h1 h
  · rcases inf_append_cases binnChars screenChars ts h with
      h | h | ⟨k, hk0, hkl, hsuf, hpre⟩
    · exact absurd h (by decide)
    · exact h2 h
    · have hdec : ∀ k, k < binnChars.length → 0 < k →
          ¬ binnChars.take k <:+ screenChars := by decide
      exact hdec k hkl hk0 hsuf
  · obtain ⟨t, ht⟩ := hpre
    have hhead : (binnChars.drop k).head? = some 's' := by
      cases hd : binnChars.drop k with
      | nil =>
          exfalso
          have hlen := congrArg List.length hd
          simp only [List.length_drop, List.length_nil] at hlen
          have hlen5 : (5 : Nat) - k = 0 := hlen
          have hkl5 : k < 5 := hkl
          omega
      | cons a l =>
          rw [hd] at ht
          have hscreen : screenChars ++ ts =
              's' :: (['c', 'r', 'e', 'e', 'n', '_'] ++ ts) := rfl
          rw [hscreen, List.cons_append] at ht
          injection ht with ha _
          simp [ha]
    have hdec : ∀ k, k < binnChars.length → 0 < k →
        (binnChars.drop k).head? ≠ some 's' := by decide
    exact hdec k hkl hk0 hhead

/-- With a clean prefix and timestamp, replacing ".binn" by ".json" in the
full path rewrites exactly the final extension. -/
theorem jsonPath_clean {pre ts : List Char}
    (h1 : ¬ binnChars <:+: pre) (h2 : ¬ binnChars <:+: ts) :
    pyReplace binnChars jsonChars ((pre ++ (screenChars ++ ts)) ++ binnChars) =
      (pre ++ (screenChars ++ ts)) ++ jsonChars := by
  rw [pyReplace_append_skip binnChars binnChars jsonChars (by decide)
    (by decide) _ (binn_clean_concat h1 h2)]
  congr 1

/-- With a timestamp containing neither stem nor extension, the name
stripping recovers exactly the timestamp. -/
theorem pngTimestamp_clean {ts : List Char}
    (h2 : ¬ binnChars <:+: ts) (h3 : ¬ screenChars <:+: ts) :
    pyReplace binnChars []
      (pyReplace screenChars [] (screenChars ++ (ts ++ binnChars))) = ts := by
  rw [pyReplace_cons_match screenChars [] _ (by decide), List.nil_append,
    pyReplace_append_skip screenChars binnChars [] (by decide) (by decide)
      ts h3,
    show pyReplace screenChars [] binnChars = binnChars from by decide,
    pyReplace_append_skip binnChars binnChars [] (by decide) (by decide)
      ts h2,
    show pyReplace binnChars [] binnChars = [] from by decide,
    List.append_nil]

/-- A timestamp containing "screen_" loses at least one extra stem during
stripping, so the derived PNG timestamp is shorter than the timestamp. -/
theorem pngTimestamp_dirty_screen {ts : List Char}
    (h : screenChars <:+: ts) :
    pyReplace binnChars []
      (pyReplace screenChars [] (screenChars ++ (ts ++ binnChars))) ≠ ts := by
  intro hEq
  rw [pyReplace_cons_match screenChars [] _ (by decide), List.nil_append]
    at hEq
  have hinf : screenChars <:+: ts ++ binnChars := inf_appendR binnChars h
  have hl1 := pyReplace_del_len_lt screenChars (ts ++ binnChars)
    (by decide) hinf
  have hl2 := pyReplace_del_len binnChars
    (pyReplace screenChars [] (ts ++ binnChars))
  rw [hEq] at hl2
  simp only [List.length_append,
    show screenChars.length = 7 from rfl,
    show binnChars.length = 5 from rfl] at hl1
  omega

/-- Core of C10, on character lists: the derived sidecar path and PNG
timestamp are the intended ones iff the directory prefix is free of
".binn" and the timestamp is free of ".binn" and "screen_". -/
theorem name_derivation_core (pre ts : List Char) :
    (pyReplace binnChars jsonChars
        (pre ++ (screenChars ++ (ts ++ binnChars))) =
        pre ++ (screenChars ++ (ts ++ jsonChars)) ∧
     pyReplace binnChars []
        (pyReplace screenChars [] (screenChars ++ (ts ++ binnChars))) = ts) ↔
    (¬ binnChars <:+: pre ∧ ¬ binnChars <:+: ts ∧
     ¬ screenChars <:+: ts) := by
  constructor
  · rintro ⟨hA, hB⟩
    refine ⟨?_, ?_, ?_⟩
    · intro hd
      exact pyReplace_dirty (pre ++ (screenChars ++ ts))
        (inf_appendR _ hd) (by simpa [List.append_assoc] using hA)
    · intro hd
      exact pyReplace_dirty (pre ++ (screenChars ++ ts))
        (inf_appendL pre (inf_appendL screenChars hd))
        (by simpa [List.append_assoc] using hA)
    · intro hd
      exact pngTimestamp_dirty_screen hd hB
  · rintro ⟨h1, h2, h3⟩
    refine ⟨?_, pngTimestamp_clean h2 h3⟩
    have := jsonPath_clean h1 h2
    simpa [List.append_assoc] using this

/-- C10 (amended): the sweep derives the sidecar path by replacing every
".binn" in the full raw-file path with ".json", and the PNG timestamp by
deleting every "screen_" and then every ".binn" from the file name; for a
raw file named screen_ts.binn under a directory prefix, the derived names
are the same-base sidecar and the timestamp ts exactly when the prefix
contains no ".binn" and ts contains neither ".binn" nor "screen_".  A
"screen_" in the directory prefix alone is harmless, because the PNG name
is derived from the file name only and the path replacement only targets
".binn". -/
theorem name_derivation_iff (pre ts : String) :
    (sidecarPathOf (pre ++ "screen_" ++ ts ++ ".binn") =
        pre ++ "screen_" ++ ts ++ ".json" ∧
     pngTimestampOf ("screen_" ++ ts ++ ".binn") = ts) ↔
    (¬ binnChars <:+: pre.data ∧ ¬ binnChars <:+: ts.data ∧
     ¬ screenChars <:+: ts.data) := by
  have e1 : (sidecarPathOf (pre ++ "screen_" ++ ts ++ ".binn") =
      pre ++ "screen_" ++ ts ++ ".json") ↔
      pyReplace binnChars jsonChars
          (pre.data ++ (screenChars ++ (ts.data ++ binnChars))) =
        pre.data ++ (screenChars ++ (ts.data ++ jsonChars)) := by
    rw [sidecarPathOf, pyReplaceS, String.ext_iff]
    simp only [String.data_append, List.append_assoc]
    exact Iff.rfl
  have e2 : (pngTimestampOf ("screen_" ++ ts ++ ".binn") = ts) ↔
      pyReplace binnChars []
          (pyReplace screenChars [] (screenChars ++ (ts.data ++ binnChars))) =
        ts.data := by
    rw [pngTimestampOf, pyReplaceS, pyReplaceS, String.ext_iff]
    simp only [String.data_append, List.append_assoc]
    exact Iff.rfl
  rw [e1, e2]
  exact name_derivation_core pre.data ts.data

/-- C10 counterexample: the directory prefix "screen_d/" contains
"screen_", yet both derived names are exactly the intended ones — the
original claim says a path containing "screen_" is mapped to a different
sidecar or PNG name, and this input is not. -/
theorem screen_in_dir_maps_same :
    sidecarPathOf ("screen_d/" ++ "screen_" ++ "1" ++ ".binn") =
        "screen_d/" ++ "screen_" ++ "1" ++ ".json" ∧
    pngTimestampOf ("screen_" ++ "1" ++ ".binn") = "1" ∧
    screenChars <:+: ("screen_d/").data := by
  refine ⟨by decide, by decide, ?_⟩
  exact ⟨[], ['d', '/'], rfl⟩

/-- String-level clean timestamp extraction: for a timestamp free of
".binn" and "screen_", stripping the raw file name yields the timestamp. -/
theorem pngTimestampOf_clean (ts : String) (h2 : ¬ binnChars <:+: ts.data)
    (h3 : ¬ screenChars <:+: ts.data) :
    pngTimestampOf ("screen_" ++ ts ++ ".binn") = ts := by
  rw [pngTimestampOf, pyReplaceS, pyReplaceS, String.ext_iff]
  simp only [String.data_append, List.append_assoc]
  exact pngTimestamp_clean h2 h3

/-- String-level clean sidecar path: for a prefix and timestamp free of
".binn", the derived sidecar path is the same-base .json path. -/
theorem sidecarPathOf_clean (pre ts : String)
    (h1 : ¬ binnChars <:+: pre.data) (h2 : ¬ binnChars <:+: ts.data) :
    sidecarPathOf (pre ++ ("screen_" ++ ts ++ ".binn")) =
      pre ++ ("screen_" ++ ts ++ ".json") := by
  rw [sidecarPathOf, pyReplaceS, String.ext_iff]
  simp only [String.data_append, List.append_assoc]
  have := jsonPath_clean h1 h2
  simpa [List.append_assoc] using this

/-- resolveDims succeeds on every sidecar state except non-object JSON. -/
theorem resolveDims_ok (s : Sidecar) (h : s ≠ .nonObject) :
    ∃ wh, resolveDims s = .ok wh := by
  cases s with
  | missing => exact ⟨(1920, 1080), rfl⟩
  | badJson => exact ⟨(1920, 1080), rfl⟩
  | nonObject => exact absurd rfl h
  | dims w hh =>
      cases w with
      | none => exact ⟨(1920, 1080), rfl⟩
      | some vw =>
          cases hh with
          | none => cases vw <;> exact ⟨(1920, 1080), rfl⟩
          | some vh =>
              cases vw with
              | jint a =>
                  cases vh with
                  | jint b =>
                      by_cases hab : a > 0 ∧ b > 0
                      · exact ⟨(a, b), by simp [resolveDims, hab]⟩
                      · exact ⟨(1920, 1080), by simp [resolveDims, hab]⟩
                  | jstr s => exact ⟨(1920, 1080), rfl⟩
                  | jnull => exact ⟨(1920, 1080), rfl⟩
                  | jmap m => exact ⟨(1920, 1080), rfl⟩
              | jstr s => cases vh <;> exact ⟨(1920, 1080), rfl⟩
              | jnull => cases vh <;> exact ⟨(1920, 1080), rfl⟩
              | jmap m => cases vh <;> exact ⟨(1920, 1080), rfl⟩

/-- C4 (amended): after one sweep pass processes a file, the raw .binn
file is gone only if its PNG was successfully written; and the capture is
fully present (raw and any sidecar intact, not counted converted), fully
absent (converted, PNG written, both files removed), or — only when the
sidecar delete failed after the raw delete succeeded — in the orphan state
of raw gone with the sidecar remaining. -/
theorem per_file_atomicity (device : String) (j : FileJob) (o : FileOutcome)
    (h : runFile device j = .ok o) :
    (o.rawPresent = false → o.png.isSome = true) ∧
    ((o.rawPresent = true ∧ o.sidecarPresent = sidecarExists j.sidecar ∧
        o.converted = false) ∨
     (o.rawPresent = false ∧ o.sidecarPresent = false ∧ o.converted = true ∧
        o.png.isSome = true) ∨
     (o.rawPresent = false ∧ o.sidecarPresent = true ∧ o.converted = false ∧
        j.oracle.removeJsonOk = false)) := by
  rw [runFile] at h
  cases hr : resolveDims j.sidecar with
  | error e =>
      rw [hr] at h
      simp at h
  | ok wh =>
      rw [hr] at h
      obtain ⟨w, v⟩ := wh
      simp only at h
      split_ifs at h with c1 c2 c3 c4 c5
      · injection h with h
        subst h
        simp [untouchedOutcome]
      · injection h with h
        subst h
        simp [untouchedOutcome]
      · injection h with h
        subst h
        simp [untouchedOutcome]
      · injection h with h
        subst h
        simp
      · injection h with h
        subst h
        exact ⟨by simp, Or.inr (Or.inr ⟨rfl, rfl, rfl, c5.2⟩)⟩
      · injection h with h
        subst h
        exact ⟨by simp, Or.inr (Or.inl ⟨rfl, rfl, rfl, by simp⟩)⟩

/-- Witness for per_file_atomicity at a fully successful conversion. -/
theorem per_file_atomicity_witness :
    ((⟨some ⟨"dev1_2.png", 100, 50⟩, false, false, true⟩ :
        FileOutcome).rawPresent = false →
      (⟨some ⟨"dev1_2.png", 100, 50⟩, false, false, true⟩ :
        FileOutcome).png.isSome = true) ∧
    (((⟨some ⟨"dev1_2.png", 100, 50⟩, false, false, true⟩ :
          FileOutcome).rawPresent = true ∧
        (⟨some ⟨"dev1_2.png", 100, 50⟩, false, false, true⟩ :
          FileOutcome).sidecarPresent = sidecarExists goodFileJob.sidecar ∧
        (⟨some ⟨"dev1_2.png", 100, 50⟩, false, false, true⟩ :
          FileOutcome).converted = false) ∨
     ((⟨some ⟨"dev1_2.png", 100, 50⟩, false, false, true⟩ :
          FileOutcome).rawPresent = false ∧
        (⟨some ⟨"dev1_2.png", 100, 50⟩, false, false, true⟩ :
          FileOutcome).sidecarPresent = false ∧
        (⟨some ⟨"dev1_2.png", 100, 50⟩, false, false, true⟩ :
          FileOutcome).converted = true ∧
        (⟨some ⟨"dev1_2.png", 100, 50⟩, false, false, true⟩ :
          FileOutcome).png.isSome = true) ∨
     ((⟨some ⟨"dev1_2.png", 100, 50⟩, false, false, true⟩ :
          FileOutcome).rawPresent = false ∧
        (⟨some ⟨"dev1_2.png", 100, 50⟩, false, false, true⟩ :
          FileOutcome).sidecarPresent = true ∧
        (⟨some ⟨"dev1_2.png", 100, 50⟩, false, false, true⟩ :
          FileOutcome).converted = false ∧
        goodFileJob.oracle.removeJsonOk = false)) :=
  per_file_atomicity "dev1" goodFileJob
    ⟨some ⟨"dev1_2.png", 100, 50⟩, false, false, true⟩ rfl

/-- C4 counterexample: every operation succeeds except the sidecar delete.
The PNG is written, the raw .binn file is deleted, the sidecar delete then
fails, and the pass leaves the state the claim rules out: the raw file
gone while its sidecar remains. -/
theorem orphan_sidecar_after_pass :
    runFile "dev1"
        ⟨"screen_1.binn", 15000, .dims (some (.jint 100)) (some (.jint 50)),
         ⟨true, true, true, false⟩⟩ =
      .ok ⟨some ⟨"dev1_1.png", 100, 50⟩, false, true, false⟩ := rfl

/-- C5: a raw capture named screen_ts.binn whose sidecar parses with valid
positive integer width=100 and height=50 and whose buffer is exactly
100*50*3 = 15000 bytes converts to a PNG of dimensions 100x50 named
device_ts.png, afterwards neither the raw file nor the sidecar remains,
and the derived sidecar path under any directory prefix is the same-base
screen_ts.json.  (The prefix and timestamp are required free of the
replaced substrings ".binn" and "screen_", as real timestamps are.) -/
theorem valid_sidecar_converts (device pre ts : String)
    (h1 : ¬ binnChars <:+: pre.data) (h2 : ¬ binnChars <:+: ts.data)
    (h3 : ¬ screenChars <:+: ts.data) :
    runFile device
        ⟨"screen_" ++ ts ++ ".binn", 15000,
         .dims (some (.jint 100)) (some (.jint 50)),
         ⟨true, true, true, true⟩⟩ =
      .ok ⟨some ⟨device ++ "_" ++ ts ++ ".png", 100, 50⟩, false, false, true⟩ ∧
    sidecarPathOf (pre ++ ("screen_" ++ ts ++ ".binn")) =
      pre ++ ("screen_" ++ ts ++ ".json") := by
  refine ⟨?_, sidecarPathOf_clean pre ts h1 h2⟩
  have hts := pngTimestampOf_clean ts h2 h3
  simp [runFile, resolveDims, sidecarExists, hts]

/-- Witness for valid_sidecar_converts at device "dev", prefix
"E:/Binn/dev/", timestamp "2024". -/
theorem valid_sidecar_converts_witness :
    runFile "dev"
        ⟨"screen_" ++ "2024" ++ ".binn", 15000,
         .dims (some (.jint 100)) (some (.jint 50)),
         ⟨true, true, true, true⟩⟩ =
      .ok ⟨some ⟨"dev" ++ "_" ++ "2024" ++ ".png", 100, 50⟩,
           false, false, true⟩ ∧
    sidecarPathOf ("E:/Binn/dev/" ++ ("screen_" ++ "2024" ++ ".binn")) =
      "E:/Binn/dev/" ++ ("screen_" ++ "2024" ++ ".json") :=
  valid_sidecar_converts "dev" "E:/Binn/dev/" "2024" (by decide) (by decide)
    (by decide)

/-- C6 (amended): (1) whatever one file's conversion attempt does short of
an uncaught exception — which covers every caught per-file failure — the
remaining files are processed exactly as they otherwise would be; (2) a
file's processing raises an uncaught exception exactly when its sidecar
holds valid non-object JSON (the AttributeError at metadata.get escapes
the per-file handling and aborts the rest of the sweep); (3) a client
whose converted-directory creation fails is skipped in place while every
other client is still processed. -/
theorem sweep_failure_isolation :
    (∀ (device : String) (j : FileJob) (o : FileOutcome)
        (rest : List FileJob), runFile device j = .ok o →
      runFiles device (j :: rest) =
        (o :: (runFiles device rest).1, (runFiles device rest).2)) ∧
    (∀ (device : String) (j : FileJob),
      (∃ e, runFile device j = .error e) ↔ j.sidecar = .nonObject) ∧
    (∀ (c : ClientJob) (rest : List ClientJob), c.mkdirOk = false →
      runClients (c :: rest) = untouchedClient c :: runClients rest) := by
  refine ⟨?_, ?_, ?_⟩
  · intro device j o rest h
    simp [runFiles, h]
  · intro device j
    constructor
    · rintro ⟨e, he⟩
      by_cases js : j.sidecar = .nonObject
      · exact js
      · exfalso
        obtain ⟨wh, hwh⟩ := resolveDims_ok j.sidecar js
        rw [runFile, hwh] at he
        obtain ⟨w, v⟩ := wh
        simp only at he
        split_ifs at he
    · intro js
      refine ⟨.attributeError, ?_⟩
      rw [runFile, js]
      rfl
  · intro c rest h
    simp [runClients, h]

/-- Witness for sweep_failure_isolation: a caught read failure on one file
leaves the next file processed; the bad-sidecar job is exactly the
uncaught case; a failing makedirs skips one client and processes the
next. -/
theorem sweep_failure_isolation_witness :
    runFiles "dev1"
        (⟨"screen_3.binn", 10, .missing, ⟨false, true, true, true⟩⟩ ::
          [goodFileJob]) =
      (untouchedOutcome ⟨"screen_3.binn", 10, .missing,
          ⟨false, true, true, true⟩⟩ ::
        (runFiles "dev1" [goodFileJob]).1,
       (runFiles "dev1" [goodFileJob]).2) ∧
    ((∃ e, runFile "dev1" badSidecarJob = .error e) ↔
      badSidecarJob.sidecar = .nonObject) ∧
    runClients (⟨"devK", true, false, []⟩ ::
        [⟨"dev2", true, true, [goodFileJob]⟩]) =
      untouchedClient ⟨"devK", true, false, []⟩ ::
        runClients [⟨"dev2", true, true, [goodFileJob]⟩] :=
  ⟨sweep_failure_isolation.1 "dev1"
      ⟨"screen_3.binn", 10, .missing, ⟨false, true, true, true⟩⟩
      (untouchedOutcome ⟨"screen_3.binn", 10, .missing,
        ⟨false, true, true, true⟩⟩) [goodFileJob] rfl,
   sweep_failure_isolation.2.1 "dev1" badSidecarJob,
   sweep_failure_isolation.2.2 ⟨"devK", true, false, []⟩
      [⟨"dev2", true, true, [goodFileJob]⟩] rfl⟩

/-- C6 counterexample: one client has two raw files; the first has a
sidecar holding the valid non-object JSON value [1, 2], the second is
perfectly convertible.  The AttributeError from the first file's
metadata.get is not caught per-file, the sweep aborts, and the second
file is left unprocessed (unconverted, raw still present) even though
processing it alone converts it — refuting "any exception while
processing an individual file causes only that file to be skipped,
processing continuing with the remaining files". -/
theorem sidecar_nonobject_aborts_sweep :
    runClients [⟨"dev1", true, true, [badSidecarJob, goodFileJob]⟩] =
      [("dev1", [untouchedOutcome badSidecarJob,
                 untouchedOutcome goodFileJob])] ∧
    runFile "dev1" goodFileJob =
      .ok ⟨some ⟨"dev1_2.png", 100, 50⟩, false, false, true⟩ :=
  ⟨rfl, rfl⟩

end SnapLog
